import Mathlib

/-!
Verification of the face/image similarity-matching engine of the
Finding-missing-person repository (src/backend/ai_matcher.py).

The engine pipeline (download → face localization → feature extraction)
is embedded by three oracle functions gathered in a `Matcher` record:
`face` models `extract_face` (returns `none` when the download, the decode
or — with a missing cascade — the whole localizer fails), `feat` models
`extract_features` (returns `none` when the embedding model is missing or
inference fails), and `sim` models `calculate_similarity` on two
successfully extracted feature representations.  All of
`compare_faces`, `find_matches` and `batch_compare` are then translated
statement by statement from the Python source.  `calculate_similarity`
itself is additionally embedded concretely over real vectors, and the
geometric part of `extract_face` (largest-area face selection, padding,
clamping) over integer rectangles.
-/

namespace AiMatcher

/-- An image locator (URL), opaque to the engine. -/
abbrev Url := String

/-- A candidate record as the engine reads it: the Python dict access
str(u.get('_id', 'unknown')) is the `id` field (a missing key yields the
string "unknown") and u.get('images', []) is the `images` field (a
missing key yields the empty list). -/
structure Person where
  id : String
  images : List Url
deriving DecidableEq

/-- The dict appended by find_matches / batch_compare:
keys 'unidentified_id', 'similarity', 'unidentified_images'. -/
structure MatchResult where
  unidentified_id : String
  similarity : ℚ
  unidentified_images : List Url
deriving DecidableEq

/-- The per-image oracles of the FaceMatcher instance.  `F` is the type of
extracted face crops, `T` the type of feature representations.  The Python
pipeline is deterministic given the network and the models, so a pure
function per stage is a faithful shallow embedding of one search run. -/
structure Matcher (F T : Type) where
  face : Url → Option F
  feat : F → Option T
  sim : T → T → ℚ

/-- extract_face followed by extract_features on one URL (the common
prelude of every comparison). -/
def extractUrl {F T : Type} (M : Matcher F T) (u : Url) : Option T :=
  (M.face u).bind M.feat

/-- FaceMatcher.compare_faces (ai_matcher.py lines 173-205): extract both
faces, then both feature vectors; any failure yields 0, otherwise the
similarity of the two feature vectors. -/
def compare_faces {F T : Type} (M : Matcher F T) (u1 u2 : Url) : ℚ :=
  match M.face u1, M.face u2 with
  | some f1, some f2 =>
    match M.feat f1, M.feat f2 with
    | some t1, some t2 => M.sim t1 t2
    | _, _ => 0
  | _, _ => 0

/-- The inner loop of find_matches (lines 231-239): scan the candidate
images for one query image, replacing the running best on strict
improvement and breaking as soon as an improving similarity reaches the
threshold. -/
def innerBest {F T : Type} (M : Matcher F T) (m : Url) (th : ℚ) :
    ℚ → List Url → ℚ
  | b, [] => b
  | b, c :: rest =>
    let s := compare_faces M m c
    if b < s then
      if th ≤ s then s else innerBest M m th s rest
    else innerBest M m th b rest

/-- The outer loop of find_matches (lines 230-242): scan the query images,
breaking as soon as the running best reaches the threshold. -/
def outerBest {F T : Type} (M : Matcher F T) (imgs : List Url) (th : ℚ) :
    ℚ → List Url → ℚ
  | b, [] => b
  | b, m :: rest =>
    let b2 := innerBest M m th b imgs
    if th ≤ b2 then b2 else outerBest M imgs th b2 rest

/-- The body of find_matches for one candidate (lines 217-245): skip a
candidate with no images, otherwise run the two loops from a running best
of 0 and append a result exactly when the final best reaches the
threshold. -/
def evalCand {F T : Type} (M : Matcher F T) (missing : List Url) (th : ℚ)
    (u : Person) : Option MatchResult :=
  if u.images.isEmpty then none
  else
    let b := outerBest M u.images th 0 missing
    if th ≤ b then some ⟨u.id, b, u.images⟩ else none

/-- FaceMatcher.find_matches (lines 207-247).  The Python default
threshold is 70. -/
def find_matches {F T : Type} (M : Matcher F T) (missing : List Url)
    (cands : List Person) (th : ℚ) : List MatchResult :=
  if missing.isEmpty || cands.isEmpty then []
  else cands.filterMap (evalCand M missing th)

/-- One entry of the feature cache built by batch_compare
(lines 267-272): id, successfully extracted features, full image list. -/
structure CandFeats (T : Type) where
  id : String
  features : List T
  images : List Url

/-- The features successfully extracted from a candidate's images
(batch_compare lines 259-265): failed downloads/extractions are dropped. -/
def candFeatures {F T : Type} (M : Matcher F T) (u : Person) : List T :=
  u.images.filterMap (extractUrl M)

/-- The feature cache of batch_compare (lines 253-272): one entry per
candidate with at least one successfully extracted feature vector. -/
def pre_extract {F T : Type} (M : Matcher F T) (cands : List Person) :
    List (CandFeats T) :=
  cands.filterMap fun u =>
    let fl := candFeatures M u
    if fl.isEmpty then none else some ⟨u.id, fl, u.images⟩

/-- The per-candidate best of batch_compare (lines 285-288): running
maximum over the cached features, started at 0. -/
def bestSim {F T : Type} (M : Matcher F T) (mf : T) (fl : List T) : ℚ :=
  fl.foldl (fun b f => max b (M.sim mf f)) 0

/-- The append step of batch_compare (lines 290-295). -/
def batchEntry {F T : Type} (M : Matcher F T) (th : ℚ) (mf : T)
    (e : CandFeats T) : Option MatchResult :=
  if th ≤ bestSim M mf e.features then
    some ⟨e.id, bestSim M mf e.features, e.images⟩
  else none

/-- FaceMatcher.batch_compare (lines 249-297): build the feature cache,
then for each query image whose own extraction succeeds, append one
result per cached candidate whose best similarity against that query
image reaches the threshold. -/
def batch_compare {F T : Type} (M : Matcher F T) (missing : List Url)
    (cands : List Person) (th : ℚ) : List MatchResult :=
  let pre := pre_extract M cands
  missing.foldr (fun m acc =>
    (match extractUrl M m with
     | none => []
     | some mf => pre.filterMap (batchEntry M th mf)) ++ acc) []

/-- The best similarity over all (query image, candidate image) pairs,
with the same floor of 0 the Python running best starts from
(calculate_similarity is nonnegative, so on a nonempty pair list this is
the true maximum). -/
def pairBest {F T : Type} (M : Matcher F T) (missing imgs : List Url) : ℚ :=
  (missing.foldr (fun m acc => imgs.map (compare_faces M m) ++ acc) []).foldl max 0

section LoopLemmas

variable {F T : Type}

lemma innerBest_ge (M : Matcher F T) (m : Url) (th : ℚ) (imgs : List Url) :
    ∀ b : ℚ, b ≤ innerBest M m th b imgs := by
  induction imgs with
  | nil => intro b; simp [innerBest]
  | cons c rest ih =>
    intro b
    simp only [innerBest]
    by_cases h1 : b < compare_faces M m c
    · rw [if_pos h1]
      by_cases h2 : th ≤ compare_faces M m c
      · rw [if_pos h2]; exact le_of_lt h1
      · rw [if_neg h2]; exact le_trans (le_of_lt h1) (ih _)
    · rw [if_neg h1]; exact ih b

lemma le_innerBest_iff (M : Matcher F T) (m : Url) (th : ℚ) (imgs : List Url) :
    ∀ b : ℚ, th ≤ innerBest M m th b imgs ↔
      th ≤ b ∨ ∃ c ∈ imgs, th ≤ compare_faces M m c := by
  induction imgs with
  | nil => intro b; simp [innerBest]
  | cons c rest ih =>
    intro b
    simp only [innerBest]
    by_cases h1 : b < compare_faces M m c
    · rw [if_pos h1]
      by_cases h2 : th ≤ compare_faces M m c
      · rw [if_pos h2]
        constructor
        · intro _; exact Or.inr ⟨c, List.mem_cons_self c rest, h2⟩
        · intro _; exact h2
      · rw [if_neg h2, ih]
        constructor
        · rintro (h | ⟨c2, hc2, hle⟩)
          · exact absurd h h2
          · exact Or.inr ⟨c2, List.mem_cons_of_mem c hc2, hle⟩
        · rintro (h | ⟨c2, hc2, hle⟩)
          · exact absurd (le_trans h (le_of_lt h1)) h2
          · rcases List.mem_cons.mp hc2 with rfl | hc2
            · exact absurd hle h2
            · exact Or.inr ⟨c2, hc2, hle⟩
    · rw [if_neg h1, ih]
      constructor
      · rintro (h | ⟨c2, hc2, hle⟩)
        · exact Or.inl h
        · exact Or.inr ⟨c2, List.mem_cons_of_mem c hc2, hle⟩
      · rintro (h | ⟨c2, hc2, hle⟩)
        · exact Or.inl h
        · rcases List.mem_cons.mp hc2 with rfl | hc2
          · exact Or.inl (le_trans hle (le_of_not_lt h1))
          · exact Or.inr ⟨c2, hc2, hle⟩

lemma innerBest_eq_or_mem (M : Matcher F T) (m : Url) (th : ℚ) (imgs : List Url) :
    ∀ b : ℚ, innerBest M m th b imgs = b ∨
      ∃ c ∈ imgs, innerBest M m th b imgs = compare_faces M m c := by
  induction imgs with
  | nil => intro b; exact Or.inl rfl
  | cons c rest ih =>
    intro b
    simp only [innerBest]
    by_cases h1 : b < compare_faces M m c
    · rw [if_pos h1]
      by_cases h2 : th ≤ compare_faces M m c
      · rw [if_pos h2]
        exact Or.inr ⟨c, List.mem_cons_self c rest, rfl⟩
      · rw [if_neg h2]
        rcases ih (compare_faces M m c) with h | ⟨c2, hc2, he⟩
        · exact Or.inr ⟨c, List.mem_cons_self c rest, h⟩
        · exact Or.inr ⟨c2, List.mem_cons_of_mem c hc2, he⟩
    · rw [if_neg h1]
      rcases ih b with h | ⟨c2, hc2, he⟩
      · exact Or.inl h
      · exact Or.inr ⟨c2, List.mem_cons_of_mem c hc2, he⟩

lemma innerBest_zero (M : Matcher F T) (m : Url) (th : ℚ) (imgs : List Url)
    (hz : ∀ c ∈ imgs, compare_faces M m c = 0) :
    innerBest M m th 0 imgs = 0 := by
  induction imgs with
  | nil => rfl
  | cons c rest ih =>
    simp only [innerBest]
    rw [hz c (List.mem_cons_self c rest)]
    simp only [lt_irrefl, if_false]
    exact ih fun c2 hc2 => hz c2 (List.mem_cons_of_mem c hc2)

lemma outerBest_ge (M : Matcher F T) (imgs : List Url) (th : ℚ) (ms : List Url) :
    ∀ b : ℚ, b ≤ outerBest M imgs th b ms := by
  induction ms with
  | nil => intro b; simp [outerBest]
  | cons m rest ih =>
    intro b
    simp only [outerBest]
    by_cases h : th ≤ innerBest M m th b imgs
    · rw [if_pos h]; exact innerBest_ge M m th imgs b
    · rw [if_neg h]
      exact le_trans (innerBest_ge M m th imgs b) (ih _)

lemma le_outerBest_iff (M : Matcher F T) (imgs : List Url) (th : ℚ) (ms : List Url) :
    ∀ b : ℚ, th ≤ outerBest M imgs th b ms ↔
      th ≤ b ∨ ∃ m ∈ ms, ∃ c ∈ imgs, th ≤ compare_faces M m c := by
  induction ms with
  | nil => intro b; simp [outerBest]
  | cons m rest ih =>
    intro b
    simp only [outerBest]
    by_cases h : th ≤ innerBest M m th b imgs
    · rw [if_pos h]
      rcases (le_innerBest_iff M m th imgs b).mp h with hb | ⟨c, hc, hle⟩
      · simp only [hb, true_or, iff_true]
        exact h
      · constructor
        · intro _
          exact Or.inr ⟨m, List.mem_cons_self m rest, c, hc, hle⟩
        · intro _; exact h
    · rw [if_neg h, ih]
      have h2 := h
      rw [le_innerBest_iff] at h2
      push_neg at h2
      obtain ⟨hb, hc⟩ := h2
      constructor
      · rintro (h3 | ⟨m2, hm2, c2, hc2, hle⟩)
        · exact absurd h3 h
        · exact Or.inr ⟨m2, List.mem_cons_of_mem m hm2, c2, hc2, hle⟩
      · rintro (h3 | ⟨m2, hm2, c2, hc2, hle⟩)
        · exact Or.inl (le_trans h3 (innerBest_ge M m th imgs b))
        · rcases List.mem_cons.mp hm2 with rfl | hm2
          · exact absurd hle (not_le_of_lt (hc c2 hc2))
          · exact Or.inr ⟨m2, hm2, c2, hc2, hle⟩

lemma outerBest_eq_or_mem (M : Matcher F T) (imgs : List Url) (th : ℚ)
    (ms : List Url) : ∀ b : ℚ, outerBest M imgs th b ms = b ∨
      ∃ m ∈ ms, ∃ c ∈ imgs, outerBest M imgs th b ms = compare_faces M m c := by
  induction ms with
  | nil => intro b; exact Or.inl rfl
  | cons m rest ih =>
    intro b
    simp only [outerBest]
    by_cases h : th ≤ innerBest M m th b imgs
    · rw [if_pos h]
      rcases innerBest_eq_or_mem M m th imgs b with h2 | ⟨c, hc, he⟩
      · exact Or.inl h2
      · exact Or.inr ⟨m, List.mem_cons_self m rest, c, hc, he⟩
    · rw [if_neg h]
      rcases ih (innerBest M m th b imgs) with h2 | ⟨m2, hm2, c2, hc2, he⟩
      · rw [h2]
        rcases innerBest_eq_or_mem M m th imgs b with h3 | ⟨c, hc, he⟩
        · exact Or.inl h3
        · exact Or.inr ⟨m, List.mem_cons_self m rest, c, hc, he⟩
      · exact Or.inr ⟨m2, List.mem_cons_of_mem m hm2, c2, hc2, he⟩

lemma outerBest_zero (M : Matcher F T) (imgs : List Url) (th : ℚ) (ms : List Url)
    (hz : ∀ m ∈ ms, ∀ c ∈ imgs, compare_faces M m c = 0) :
    outerBest M imgs th 0 ms = 0 := by
  induction ms with
  | nil => rfl
  | cons m rest ih =>
    simp only [outerBest]
    rw [innerBest_zero M m th imgs (hz m (List.mem_cons_self m rest))]
    by_cases h : th ≤ (0 : ℚ)
    · rw [if_pos h]
    · rw [if_neg h]
      exact ih fun m2 hm2 => hz m2 (List.mem_cons_of_mem m hm2)

end LoopLemmas

section MembershipLemmas

variable {F T : Type}

lemma compare_faces_eq_extract (M : Matcher F T) (u1 u2 : Url) :
    compare_faces M u1 u2 =
      match extractUrl M u1, extractUrl M u2 with
      | some t1, some t2 => M.sim t1 t2
      | _, _ => 0 := by
  unfold compare_faces extractUrl
  cases M.face u1 with
  | none => cases M.face u2 <;> rfl
  | some f1 =>
    cases M.face u2 with
    | none =>
      simp only [Option.some_bind, Option.none_bind]
      cases M.feat f1 <;> rfl
    | some f2 =>
      simp only [Option.some_bind]

lemma le_compare_faces_iff (M : Matcher F T) (u1 u2 : Url) (th : ℚ)
    (hth : 0 < th) :
    th ≤ compare_faces M u1 u2 ↔
      ∃ t1 t2, extractUrl M u1 = some t1 ∧ extractUrl M u2 = some t2 ∧
        th ≤ M.sim t1 t2 := by
  rw [compare_faces_eq_extract]
  cases h1 : extractUrl M u1 with
  | none => simp [not_le_of_lt hth]
  | some t1 =>
    cases h2 : extractUrl M u2 with
    | none => simp [not_le_of_lt hth]
    | some t2 => simp

lemma compare_faces_eq_zero_of_none (M : Matcher F T) (u1 u2 : Url)
    (h : extractUrl M u1 = none ∨ extractUrl M u2 = none) :
    compare_faces M u1 u2 = 0 := by
  rw [compare_faces_eq_extract]
  rcases h with h | h
  · rw [h]
  · rw [h]; cases extractUrl M u1 <;> rfl

lemma find_matches_eq_filterMap (M : Matcher F T) (missing : List Url)
    (cands : List Person) (th : ℚ) (hm : missing ≠ []) :
    find_matches M missing cands th = cands.filterMap (evalCand M missing th) := by
  cases missing with
  | nil => exact absurd rfl hm
  | cons m ms =>
    cases cands with
    | nil => rfl
    | cons u us => rfl

lemma evalCand_eq_some (M : Matcher F T) (missing : List Url) (th : ℚ)
    (u : Person) (r : MatchResult) :
    evalCand M missing th u = some r ↔
      u.images ≠ [] ∧ th ≤ outerBest M u.images th 0 missing ∧
        r = ⟨u.id, outerBest M u.images th 0 missing, u.images⟩ := by
  unfold evalCand
  by_cases h1 : u.images.isEmpty
  · rw [if_pos h1]
    simp [List.isEmpty_iff.mp h1]
  · rw [if_neg h1]
    by_cases h2 : th ≤ outerBest M u.images th 0 missing
    · rw [if_pos h2]
      simp only [Option.some.injEq]
      constructor
      · intro h3
        exact ⟨fun he => h1 (List.isEmpty_iff.mpr he), h2, h3.symm⟩
      · intro h3
        exact h3.2.2.symm
    · rw [if_neg h2]
      simp only [false_iff, reduceCtorEq]
      intro h3
      exact h2 h3.2.1

lemma mem_find_matches (M : Matcher F T) (missing : List Url)
    (cands : List Person) (th : ℚ) (r : MatchResult) (hm : missing ≠ []) :
    r ∈ find_matches M missing cands th ↔
      ∃ u ∈ cands, u.images ≠ [] ∧ th ≤ outerBest M u.images th 0 missing ∧
        r = ⟨u.id, outerBest M u.images th 0 missing, u.images⟩ := by
  rw [find_matches_eq_filterMap M missing cands th hm, List.mem_filterMap]
  constructor
  · rintro ⟨u, hu, he⟩
    exact ⟨u, hu, (evalCand_eq_some M missing th u r).mp he⟩
  · rintro ⟨u, hu, he⟩
    exact ⟨u, hu, (evalCand_eq_some M missing th u r).mpr he⟩

lemma mem_candFeatures (M : Matcher F T) (u : Person) (f : T) :
    f ∈ candFeatures M u ↔ ∃ c ∈ u.images, extractUrl M c = some f := by
  unfold candFeatures
  rw [List.mem_filterMap]

lemma mem_pre_extract (M : Matcher F T) (cands : List Person) (e : CandFeats T) :
    e ∈ pre_extract M cands ↔
      ∃ u ∈ cands, candFeatures M u ≠ [] ∧
        e = ⟨u.id, candFeatures M u, u.images⟩ := by
  unfold pre_extract
  rw [List.mem_filterMap]
  constructor
  · rintro ⟨u, hu, he⟩
    by_cases h1 : (candFeatures M u).isEmpty
    · rw [if_pos h1] at he
      exact absurd he (by simp)
    · rw [if_neg h1] at he
      refine ⟨u, hu, fun h2 => h1 (List.isEmpty_iff.mpr h2), ?_⟩
      exact (Option.some.injEq _ _ ▸ he).symm
  · rintro ⟨u, hu, hne, rfl⟩
    refine ⟨u, hu, ?_⟩
    rw [if_neg fun h1 => hne (List.isEmpty_iff.mp h1)]

lemma le_bestSim_iff (M : Matcher F T) (mf : T) (fl : List T) (th : ℚ) :
    th ≤ bestSim M mf fl ↔ th ≤ 0 ∨ ∃ f ∈ fl, th ≤ M.sim mf f := by
  have H : ∀ (l : List T) (b : ℚ),
      th ≤ l.foldl (fun b f => max b (M.sim mf f)) b ↔
        th ≤ b ∨ ∃ f ∈ l, th ≤ M.sim mf f := by
    intro l
    induction l with
    | nil => intro b; simp
    | cons f rest ih =>
      intro b
      rw [List.foldl_cons, ih]
      rw [le_max_iff]
      constructor
      · rintro (⟨h | h⟩ | ⟨f2, hf2, hle⟩)
        · exact Or.inl h
        · exact Or.inr ⟨f, List.mem_cons_self f rest, h⟩
        · exact Or.inr ⟨f2, List.mem_cons_of_mem f hf2, hle⟩
      · rintro (h | ⟨f2, hf2, hle⟩)
        · exact Or.inl (Or.inl h)
        · rcases List.mem_cons.mp hf2 with rfl | hf2
          · exact Or.inl (Or.inr hle)
          · exact Or.inr ⟨f2, hf2, hle⟩
  exact H fl 0

lemma batchEntry_eq_some (M : Matcher F T) (th : ℚ) (mf : T) (e : CandFeats T)
    (r : MatchResult) :
    batchEntry M th mf e = some r ↔
      th ≤ bestSim M mf e.features ∧
        r = ⟨e.id, bestSim M mf e.features, e.images⟩ := by
  unfold batchEntry
  by_cases h : th ≤ bestSim M mf e.features
  · rw [if_pos h]
    simp only [Option.some.injEq, h, true_and]
    exact ⟨fun h2 => h2.symm, fun h2 => h2.symm⟩
  · rw [if_neg h]
    simp only [false_iff, reduceCtorEq]
    intro h2
    exact h h2.1

lemma mem_batch_compare (M : Matcher F T) (missing : List Url)
    (cands : List Person) (th : ℚ) (r : MatchResult) :
    r ∈ batch_compare M missing cands th ↔
      ∃ m ∈ missing, ∃ mf, extractUrl M m = some mf ∧
        ∃ e ∈ pre_extract M cands, batchEntry M th mf e = some r := by
  unfold batch_compare
  induction missing with
  | nil => simp
  | cons m rest ih =>
    rw [List.foldr_cons, List.mem_append, ih]
    constructor
    · rintro (h | ⟨m2, hm2, mf, hmf, e, he, hr⟩)
      · cases hx : extractUrl M m with
        | none => rw [hx] at h; exact absurd h (List.not_mem_nil r)
        | some mf =>
          rw [hx] at h
          rcases List.mem_filterMap.mp h with ⟨e, he, hr⟩
          exact ⟨m, List.mem_cons_self m rest, mf, hx, e, he, hr⟩
      · exact ⟨m2, List.mem_cons_of_mem m hm2, mf, hmf, e, he, hr⟩
    · rintro ⟨m2, hm2, mf, hmf, e, he, hr⟩
      rcases List.mem_cons.mp hm2 with rfl | hm2
      · rw [hmf]
        exact Or.inl (List.mem_filterMap.mpr ⟨e, he, hr⟩)
      · exact Or.inr ⟨m2, hm2, mf, hmf, e, he, hr⟩

lemma le_foldl_max_iff (l : List ℚ) (th : ℚ) :
    ∀ b : ℚ, th ≤ l.foldl max b ↔ th ≤ b ∨ ∃ a ∈ l, th ≤ a := by
  induction l with
  | nil => intro b; simp
  | cons a rest ih =>
    intro b
    rw [List.foldl_cons, ih, le_max_iff]
    constructor
    · rintro (⟨h | h⟩ | ⟨a2, ha2, hle⟩)
      · exact Or.inl h
      · exact Or.inr ⟨a, List.mem_cons_self a rest, h⟩
      · exact Or.inr ⟨a2, List.mem_cons_of_mem a ha2, hle⟩
    · rintro (h | ⟨a2, ha2, hle⟩)
      · exact Or.inl (Or.inl h)
      · rcases List.mem_cons.mp ha2 with rfl | ha2
        · exact Or.inl (Or.inr hle)
        · exact Or.inr ⟨a2, ha2, hle⟩

lemma mem_pairList (M : Matcher F T) (missing imgs : List Url) (a : ℚ) :
    a ∈ missing.foldr (fun m acc => imgs.map (compare_faces M m) ++ acc) [] ↔
      ∃ m ∈ missing, ∃ c ∈ imgs, a = compare_faces M m c := by
  induction missing with
  | nil => simp
  | cons m rest ih =>
    rw [List.foldr_cons, List.mem_append, ih]
    constructor
    · rintro (h | ⟨m2, hm2, c2, hc2, he⟩)
      · rcases List.mem_map.mp h with ⟨c, hc, he⟩
        exact ⟨m, List.mem_cons_self m rest, c, hc, he.symm⟩
      · exact ⟨m2, List.mem_cons_of_mem m hm2, c2, hc2, he⟩
    · rintro ⟨m2, hm2, c2, hc2, he⟩
      rcases List.mem_cons.mp hm2 with rfl | hm2
      · exact Or.inl (List.mem_map.mpr ⟨c2, hc2, he.symm⟩)
      · exact Or.inr ⟨m2, hm2, c2, hc2, he⟩

lemma le_pairBest_iff (M : Matcher F T) (missing imgs : List Url) (th : ℚ) :
    th ≤ pairBest M missing imgs ↔
      th ≤ 0 ∨ ∃ m ∈ missing, ∃ c ∈ imgs, th ≤ compare_faces M m c := by
  unfold pairBest
  rw [le_foldl_max_iff]
  constructor
  · rintro (h | ⟨a, ha, hle⟩)
    · exact Or.inl h
    · rcases (mem_pairList M missing imgs a).mp ha with ⟨m, hm, c, hc, rfl⟩
      exact Or.inr ⟨m, hm, c, hc, hle⟩
  · rintro (h | ⟨m, hm, c, hc, hle⟩)
    · exact Or.inl h
    · exact Or.inr ⟨compare_faces M m c,
        (mem_pairList M missing imgs _).mpr ⟨m, hm, c, hc, rfl⟩, hle⟩

lemma pairBest_nonneg (M : Matcher F T) (missing imgs : List Url) :
    0 ≤ pairBest M missing imgs :=
  (le_pairBest_iff M missing imgs 0).mpr (Or.inl le_rfl)

lemma compare_le_pairBest (M : Matcher F T) (missing imgs : List Url)
    (m c : Url) (hm : m ∈ missing) (hc : c ∈ imgs) :
    compare_faces M m c ≤ pairBest M missing imgs :=
  (le_pairBest_iff M missing imgs _).mpr (Or.inr ⟨m, hm, c, hc, le_rfl⟩)

end MembershipLemmas

/-- A detected bounding box (x, y, w, h) as returned by
cv2.CascadeClassifier.detectMultiScale, in integer pixel coordinates. -/
structure Rect where
  x : ℤ
  y : ℤ
  w : ℤ
  h : ℤ
deriving DecidableEq

/-- The key rect[2] * rect[3] of the selection on line 90. -/
def area (r : Rect) : ℤ := r.w * r.h

/-- max(faces, key=lambda rect: rect[2] * rect[3]) (line 90) on the
nonempty list r0 :: rs: Python max keeps the current element and replaces
it only on a strictly larger key, so it returns the first element
attaining the maximal area. -/
def largestFace (r0 : Rect) (rs : List Rect) : Rect :=
  rs.foldl (fun best r => if area best < area r then r else best) r0

/-- The padding and clamping of the selected box (lines 92-96).  The
Python padding int(min(w, h) * 0.2) equals min(w, h) / 5 by integer
division for every box dimension a real image can have (the float
computation only drifts from n / 5 for n around 2^51). -/
def padClamp (W H : ℤ) (r : Rect) : Rect :=
  let p := min r.w r.h / 5
  let x := max 0 (r.x - p)
  let y := max 0 (r.y - p)
  ⟨x, y, min (W - x) (r.w + 2 * p), min (H - y) (r.h + 2 * p)⟩

/-- The face-selection logic of extract_face (lines 88-103) on a
successfully downloaded and decoded image of width W and height H, with
the detector run modelled by the list of boxes it returned: zero
detections yield the whole image (lines 100-103), otherwise the
largest detected box is padded and clamped (lines 88-99). -/
def extract_face (W H : ℤ) (faces : List Rect) : Rect :=
  match faces with
  | [] => ⟨0, 0, W, H⟩
  | r0 :: rest => padClamp W H (largestFace r0 rest)

lemma largestFace_spec (r0 : Rect) (rs : List Rect) :
    largestFace r0 rs ∈ r0 :: rs ∧
      ∀ r ∈ r0 :: rs, area r ≤ area (largestFace r0 rs) := by
  induction rs generalizing r0 with
  | nil =>
    refine ⟨List.mem_cons_self r0 [], ?_⟩
    intro r hr
    rcases List.mem_cons.mp hr with rfl | hr
    · exact le_rfl
    · exact absurd hr (List.not_mem_nil r)
  | cons r1 rs ih =>
    have step : largestFace r0 (r1 :: rs) =
        largestFace (if area r0 < area r1 then r1 else r0) rs := rfl
    set s := if area r0 < area r1 then r1 else r0 with hs
    obtain ⟨hmem, hmax⟩ := ih s
    constructor
    · rw [step]
      rcases List.mem_cons.mp hmem with he | hin
      · rw [he]
        by_cases h : area r0 < area r1
        · rw [hs, if_pos h]
          exact List.mem_cons_of_mem r0 (List.mem_cons_self r1 rs)
        · rw [hs, if_neg h]
          exact List.mem_cons_self r0 (r1 :: rs)
      · exact List.mem_cons_of_mem r0 (List.mem_cons_of_mem r1 hin)
    · intro r hr
      rw [step]
      have hs_le : area s ≤ area (largestFace s rs) :=
        hmax s (List.mem_cons_self s rs)
      have hr0 : area r0 ≤ area s := by
        by_cases h : area r0 < area r1
        · rw [hs, if_pos h]; exact le_of_lt h
        · rw [hs, if_neg h]
      have hr1 : area r1 ≤ area s := by
        by_cases h : area r0 < area r1
        · rw [hs, if_pos h]
        · rw [hs, if_neg h]; exact le_of_not_lt h
      rcases List.mem_cons.mp hr with rfl | hr
      · exact le_trans hr0 hs_le
      · rcases List.mem_cons.mp hr with rfl | hr
        · exact le_trans hr1 hs_le
        · exact hmax r (List.mem_cons_of_mem s hr)

lemma padClamp_bounds (W H : ℤ) (r : Rect)
    (hx : 0 ≤ r.x) (hy : 0 ≤ r.y) (hw : 0 < r.w) (hh : 0 < r.h)
    (hxw : r.x + r.w ≤ W) (hyh : r.y + r.h ≤ H) :
    0 ≤ (padClamp W H r).x ∧ 0 ≤ (padClamp W H r).y ∧
      0 < (padClamp W H r).w ∧ 0 < (padClamp W H r).h ∧
      (padClamp W H r).x + (padClamp W H r).w ≤ W ∧
      (padClamp W H r).y + (padClamp W H r).h ≤ H := by
  have hp : 0 ≤ min r.w r.h / 5 :=
    Int.ediv_nonneg (le_min (le_of_lt hw) (le_of_lt hh)) (by norm_num)
  unfold padClamp
  simp only
  set p := min r.w r.h / 5 with hpdef
  set x2 := max 0 (r.x - p) with hx2
  set y2 := max 0 (r.y - p) with hy2
  have hx2n : 0 ≤ x2 := le_max_left 0 _
  have hy2n : 0 ≤ y2 := le_max_left 0 _
  have hx2le : x2 ≤ r.x := max_le hx (by linarith)
  have hy2le : y2 ≤ r.y := max_le hy (by linarith)
  refine ⟨hx2n, hy2n, lt_min (by linarith) (by linarith),
    lt_min (by linarith) (by linarith), ?_, ?_⟩
  · have := min_le_left (W - x2) (r.w + 2 * p)
    linarith
  · have := min_le_left (H - y2) (r.h + 2 * p)
    linarith

/-- Pairwise dot product of two real vectors (np.dot on 1-D arrays of
equal length; the embedding is only evaluated on equal lengths, numpy
raises otherwise and the caller's except turns that into a 0 score). -/
def dotp : List ℝ → List ℝ → ℝ
  | a :: as, b :: bs => a * b + dotp as bs
  | _, _ => 0

/-- FaceMatcher.calculate_similarity (lines 139-171) on real feature
vectors.  None inputs score 0 (lines 142-143), empty inputs score 0
(lines 146-147), a zero L2 norm on either side scores 0 (lines 150-154),
np.dot on vectors of different lengths raises and the surrounding except
absorbs that into 0 (lines 169-171); otherwise the dot product of the two
L2-normalized vectors is clipped to [-1, 1] and affinely mapped to
[0, 100] (lines 156-168). -/
noncomputable def calculate_similarity (f1 f2 : Option (List ℝ)) : ℝ :=
  match f1, f2 with
  | some x, some y =>
    if x.length = 0 ∨ y.length = 0 then 0
    else if Real.sqrt (dotp x x) = 0 ∨ Real.sqrt (dotp y y) = 0 then 0
    else if x.length ≠ y.length then 0
    else
      let s := dotp (x.map fun a => a / Real.sqrt (dotp x x))
                    (y.map fun a => a / Real.sqrt (dotp y y))
      (max (-1) (min 1 s) + 1) / 2 * 100
  | _, _ => 0

lemma dotp_self_nonneg (x : List ℝ) : 0 ≤ dotp x x := by
  induction x with
  | nil => exact le_refl 0
  | cons a as ih =>
    show 0 ≤ a * a + dotp as as
    have := mul_self_nonneg a
    linarith

lemma dotp_map_div (a b : ℝ) : ∀ x y : List ℝ,
    dotp (x.map fun v => v / a) (y.map fun v => v / b) = dotp x y / (a * b) := by
  intro x
  induction x with
  | nil => intro y; simp [dotp]
  | cons v vs ih =>
    intro y
    cases y with
    | nil => simp [dotp]
    | cons w ws =>
      show v / a * (w / b) + dotp (vs.map fun v => v / a) (ws.map fun v => v / b) =
        (v * w + dotp vs ws) / (a * b)
      rw [ih ws, div_mul_div_comm, div_add_div_same]

/-- A matcher in the fully degraded state: neither the cascade nor the
model is available, every extraction fails. -/
def Mnone : Matcher Unit Unit := ⟨fun _ => none, fun _ => none, fun _ _ => 0⟩

/-- A matcher whose pipeline always succeeds and scores every pair 80. -/
def Mconst : Matcher Url Url := ⟨some, some, fun _ _ => 80⟩

/-- A matcher whose pipeline always succeeds and scores 80 against the
candidate image c1.jpg and 90 against every other image. -/
def Mtwo : Matcher Url Url :=
  ⟨some, some, fun _ t2 => if t2 = "c1.jpg" then 80 else 90⟩

/-- C4: for all real feature inputs calculate_similarity returns a value
in [0, 100]; None, empty and zero-norm inputs return 0 rather than a
division error, and even anti-parallel vectors score at least 0. -/
theorem C4_similarity_range :
    (∀ f1 f2 : Option (List ℝ),
      0 ≤ calculate_similarity f1 f2 ∧ calculate_similarity f1 f2 ≤ 100) ∧
    (∀ f2, calculate_similarity none f2 = 0) ∧
    (∀ f1, calculate_similarity f1 none = 0) ∧
    (∀ x y : List ℝ, x.length = 0 ∨ y.length = 0 →
      calculate_similarity (some x) (some y) = 0) ∧
    (∀ x y : List ℝ,
      Real.sqrt (dotp x x) = 0 ∨ Real.sqrt (dotp y y) = 0 →
      calculate_similarity (some x) (some y) = 0) := by
  have hcase : ∀ x y : List ℝ, 0 ≤ calculate_similarity (some x) (some y) ∧
      calculate_similarity (some x) (some y) ≤ 100 := by
    intro x y
    simp only [calculate_similarity]
    by_cases h1 : x.length = 0 ∨ y.length = 0
    · rw [if_pos h1]; norm_num
    · rw [if_neg h1]
      by_cases h2 : Real.sqrt (dotp x x) = 0 ∨ Real.sqrt (dotp y y) = 0
      · rw [if_pos h2]; norm_num
      · rw [if_neg h2]
        by_cases h3 : x.length ≠ y.length
        · rw [if_pos h3]; norm_num
        · rw [if_neg h3]
          set s := dotp (x.map fun a => a / Real.sqrt (dotp x x))
            (y.map fun a => a / Real.sqrt (dotp y y)) with hs
          have hc1 : -1 ≤ max (-1) (min 1 s) := le_max_left _ _
          have hc2 : max (-1) (min 1 s) ≤ 1 :=
            max_le (by norm_num) (min_le_left _ _)
          constructor <;> nlinarith
  refine ⟨?_, fun f2 => rfl, ?_, ?_, ?_⟩
  · intro f1 f2
    match f1, f2 with
    | none, f2 =>
      refine ⟨le_refl 0, ?_⟩
      show (0 : ℝ) ≤ 100
      norm_num
    | some x, none =>
      refine ⟨le_refl 0, ?_⟩
      show (0 : ℝ) ≤ 100
      norm_num
    | some x, some y => exact hcase x y
  · intro f1
    match f1 with
    | none => rfl
    | some x => rfl
  · intro x y h
    simp only [calculate_similarity]
    rw [if_pos h]
  · intro x y h
    simp only [calculate_similarity]
    by_cases h1 : x.length = 0 ∨ y.length = 0
    · rw [if_pos h1]
    · rw [if_neg h1, if_pos h]

/-- C4 witness: a zero vector against a nonzero one scores 0 through the
zero-norm branch, and anti-parallel one-dimensional vectors score at
least 0. -/
theorem C4_witness :
    calculate_similarity (some [(0 : ℝ)]) (some [(5 : ℝ)]) = 0 ∧
      0 ≤ calculate_similarity (some [(1 : ℝ)]) (some [(-1 : ℝ)]) := by
  constructor
  · apply C4_similarity_range.2.2.2.2 [(0 : ℝ)] [(5 : ℝ)]
    left
    have h : dotp [(0 : ℝ)] [(0 : ℝ)] = 0 := by norm_num [dotp]
    rw [h, Real.sqrt_zero]
  · exact (C4_similarity_range.1 (some [(1 : ℝ)]) (some [(-1 : ℝ)])).1

/-- C8: the self-similarity of any valid (nonempty, nonzero-norm)
feature vector is exactly 100. -/
theorem C8_self_similarity (x : List ℝ) (hne : x ≠ [])
    (hnz : Real.sqrt (dotp x x) ≠ 0) :
    calculate_similarity (some x) (some x) = 100 := by
  have hS : dotp x x ≠ 0 := by
    intro h
    exact hnz (by rw [h, Real.sqrt_zero])
  have h1 : ¬(x.length = 0 ∨ x.length = 0) := by
    rw [or_self, List.length_eq_zero]
    exact hne
  have h2 : ¬(Real.sqrt (dotp x x) = 0 ∨ Real.sqrt (dotp x x) = 0) := by
    rw [or_self]
    exact hnz
  have h3 : ¬(x.length ≠ x.length) := fun h => h rfl
  simp only [calculate_similarity]
  rw [if_neg h1, if_neg h2, if_neg h3, dotp_map_div,
    Real.mul_self_sqrt (dotp_self_nonneg x), div_self hS]
  rw [min_self, max_eq_right (by norm_num : (-1 : ℝ) ≤ 1)]
  norm_num

/-- C8 witness: the one-dimensional unit vector scores 100 against
itself. -/
theorem C8_witness :
    [(1 : ℝ)] ≠ [] ∧ Real.sqrt (dotp [(1 : ℝ)] [(1 : ℝ)]) ≠ 0 ∧
      calculate_similarity (some [(1 : ℝ)]) (some [(1 : ℝ)]) = 100 := by
  have h1 : [(1 : ℝ)] ≠ [] := by simp
  have h2 : Real.sqrt (dotp [(1 : ℝ)] [(1 : ℝ)]) ≠ 0 := by
    have h : dotp [(1 : ℝ)] [(1 : ℝ)] = 1 := by norm_num [dotp]
    rw [h, Real.sqrt_one]
    norm_num
  exact ⟨h1, h2, C8_self_similarity [(1 : ℝ)] h1 h2⟩

/-- C5: an engine lacking the face cascade (every extract_face fails) or
the embedding model (every extract_features fails) degrades to zero/empty
results: compare_faces returns 0 and find_matches at the default
threshold 70 returns no matches, with no error raised. -/
theorem C5_degraded_resources {F T : Type} (M : Matcher F T)
    (h : (∀ u, M.face u = none) ∨ (∀ f, M.feat f = none)) :
    (∀ u1 u2, compare_faces M u1 u2 = 0) ∧
      (∀ missing cands, find_matches M missing cands 70 = []) := by
  have hz : ∀ u1 u2, compare_faces M u1 u2 = 0 := by
    intro u1 u2
    apply compare_faces_eq_zero_of_none
    left
    unfold extractUrl
    rcases h with h | h
    · rw [h u1]
      rfl
    · cases M.face u1 with
      | none => rfl
      | some f => exact h f
  refine ⟨hz, ?_⟩
  intro missing cands
  cases missing with
  | nil => rfl
  | cons m ms =>
    rw [find_matches_eq_filterMap M (m :: ms) cands 70 (List.cons_ne_nil m ms)]
    rw [List.filterMap_eq_nil_iff]
    intro u hu
    unfold evalCand
    by_cases h1 : u.images.isEmpty
    · rw [if_pos h1]
    · rw [if_neg h1]
      rw [outerBest_zero M u.images 70 (m :: ms) fun m2 _ c2 _ => hz m2 c2]
      norm_num

/-- C5 witness: the fully degraded matcher compares everything to 0 and
finds no matches. -/
theorem C5_witness :
    compare_faces Mnone "a.jpg" "b.jpg" = 0 ∧
      find_matches Mnone ["a.jpg"] [⟨"1", ["b.jpg"]⟩] 70 = [] :=
  ⟨(C5_degraded_resources Mnone (Or.inl fun _ => rfl)).1 "a.jpg" "b.jpg",
    (C5_degraded_resources Mnone (Or.inl fun _ => rfl)).2
      ["a.jpg"] [⟨"1", ["b.jpg"]⟩]⟩

/-- C6: per-image failures are absorbed, never raised: a failed
extraction on either side scores compare_faces 0; batch_compare skips a
query image whose extraction fails and drops a failed candidate image
from the feature cache; find_matches carries on past a candidate all of
whose comparisons fail and processes the remaining candidates. -/
theorem C6_failures_absorbed {F T : Type} (M : Matcher F T) :
    (∀ m c, extractUrl M m = none ∨ extractUrl M c = none →
      compare_faces M m c = 0) ∧
    (∀ m mrest cands th, extractUrl M m = none →
      batch_compare M (m :: mrest) cands th = batch_compare M mrest cands th) ∧
    (∀ x c imgs, extractUrl M c = none →
      candFeatures M ⟨x, c :: imgs⟩ = candFeatures M ⟨x, imgs⟩) ∧
    (∀ missing u rest th, missing ≠ [] → 0 < th →
      (∀ m ∈ missing, ∀ c ∈ u.images, compare_faces M m c = 0) →
      find_matches M missing (u :: rest) th = find_matches M missing rest th) := by
  refine ⟨?_, ?_, ?_, ?_⟩
  · intro m c h
    exact compare_faces_eq_zero_of_none M m c h
  · intro m mrest cands th hnone
    simp only [batch_compare, List.foldr_cons]
    rw [hnone]
    simp
  · intro x c imgs hnone
    show List.filterMap (extractUrl M) (c :: imgs) =
      List.filterMap (extractUrl M) imgs
    exact List.filterMap_cons_none hnone
  · intro missing u rest th hm hth hz
    rw [find_matches_eq_filterMap M missing (u :: rest) th hm,
      find_matches_eq_filterMap M missing rest th hm]
    apply List.filterMap_cons_none
    unfold evalCand
    by_cases h1 : u.images.isEmpty
    · rw [if_pos h1]
    · rw [if_neg h1]
      rw [outerBest_zero M u.images th missing fun m2 hm2 c2 hc2 => hz m2 hm2 c2 hc2]
      rw [if_neg (not_le_of_lt hth)]

/-- C6 witness: concrete absorbed failures with the degraded matcher. -/
theorem C6_witness :
    compare_faces Mnone "q.jpg" "c.jpg" = 0 ∧
      batch_compare Mnone ["q.jpg"] [⟨"1", ["c.jpg"]⟩] 70 =
        batch_compare Mnone [] [⟨"1", ["c.jpg"]⟩] 70 ∧
      find_matches Mnone ["q.jpg"] [⟨"1", ["c.jpg"]⟩, ⟨"2", ["d.jpg"]⟩] 70 =
        find_matches Mnone ["q.jpg"] [⟨"2", ["d.jpg"]⟩] 70 := by
  refine ⟨(C6_failures_absorbed Mnone).1 "q.jpg" "c.jpg" (Or.inl rfl),
    (C6_failures_absorbed Mnone).2.1 "q.jpg" [] [⟨"1", ["c.jpg"]⟩] 70 rfl,
    (C6_failures_absorbed Mnone).2.2.2 ["q.jpg"] ⟨"1", ["c.jpg"]⟩
      [⟨"2", ["d.jpg"]⟩] 70 (List.cons_ne_nil _ _) (by norm_num) ?_⟩
  intro m _ c _
  exact (C6_failures_absorbed Mnone).1 m c (Or.inl rfl)

/-- C7: find_matches on an empty query list or an empty candidate list
returns []; a candidate whose image list is empty (or whose 'images' key
is missing, read as []) is skipped by find_matches and by batch_compare
and never appears in any result, at any threshold. -/
theorem C7_empty_inputs {F T : Type} (M : Matcher F T) :
    (∀ cands th, find_matches M [] cands th = []) ∧
    (∀ missing th, find_matches M missing [] th = []) ∧
    (∀ missing u rest th, u.images = [] →
      find_matches M missing (u :: rest) th = find_matches M missing rest th) ∧
    (∀ missing cands th r, r ∈ find_matches M missing cands th →
      r.unidentified_images ≠ []) ∧
    (∀ missing u rest th, u.images = [] →
      batch_compare M missing (u :: rest) th = batch_compare M missing rest th) := by
  refine ⟨fun cands th => rfl, ?_, ?_, ?_, ?_⟩
  · intro missing th
    cases missing <;> rfl
  · intro missing u rest th himg
    cases missing with
    | nil => rfl
    | cons m ms =>
      rw [find_matches_eq_filterMap M (m :: ms) (u :: rest) th (List.cons_ne_nil m ms),
        find_matches_eq_filterMap M (m :: ms) rest th (List.cons_ne_nil m ms)]
      apply List.filterMap_cons_none
      unfold evalCand
      rw [if_pos (List.isEmpty_iff.mpr himg)]
  · intro missing cands th r hr
    cases missing with
    | nil => exact absurd hr (by simp [find_matches])
    | cons m ms =>
      obtain ⟨u, _, himg, _, rfl⟩ :=
        (mem_find_matches M (m :: ms) cands th r (List.cons_ne_nil m ms)).mp hr
      exact himg
  · intro missing u rest th himg
    have hpre : pre_extract M (u :: rest) = pre_extract M rest := by
      unfold pre_extract
      apply List.filterMap_cons_none
      have hcf : candFeatures M u = [] := by
        unfold candFeatures
        rw [himg]
        rfl
      rw [hcf]
      rfl
    simp only [batch_compare, hpre]

/-- C7 witness: concrete empty-input and empty-candidate calls. -/
theorem C7_witness :
    find_matches Mconst [] [⟨"1", ["c.jpg"]⟩] 70 = [] ∧
      find_matches Mconst ["q.jpg"] [] 70 = [] ∧
      find_matches Mconst ["q.jpg"] [⟨"2", []⟩, ⟨"1", ["c.jpg"]⟩] 70 =
        find_matches Mconst ["q.jpg"] [⟨"1", ["c.jpg"]⟩] 70 ∧
      batch_compare Mconst ["q.jpg"] [⟨"2", []⟩] 70 =
        batch_compare Mconst ["q.jpg"] [] 70 :=
  ⟨(C7_empty_inputs Mconst).1 [⟨"1", ["c.jpg"]⟩] 70,
    (C7_empty_inputs Mconst).2.1 ["q.jpg"] 70,
    (C7_empty_inputs Mconst).2.2.1 ["q.jpg"] ⟨"2", []⟩ [⟨"1", ["c.jpg"]⟩] 70 rfl,
    (C7_empty_inputs Mconst).2.2.2.2 ["q.jpg"] ⟨"2", []⟩ [] 70 rfl⟩

/-- C9: on a decoded image, zero detections make extract_face return the
whole image as a usable region; otherwise it returns a maximal-area
detected box, padded by int(min(w, h) * 0.2) = min(w, h) / 5 per side and
clamped, which is a nonempty region inside the image bounds. -/
theorem C9_face_selection (W H : ℤ) (faces : List Rect)
    (hW : 0 < W) (hH : 0 < H)
    (hin : ∀ r ∈ faces, 0 ≤ r.x ∧ 0 ≤ r.y ∧ 0 < r.w ∧ 0 < r.h ∧
      r.x + r.w ≤ W ∧ r.y + r.h ≤ H) :
    (faces = [] → extract_face W H faces = ⟨0, 0, W, H⟩ ∧
      0 < (extract_face W H faces).w ∧ 0 < (extract_face W H faces).h) ∧
    (faces ≠ [] → ∃ b ∈ faces, (∀ r ∈ faces, area r ≤ area b) ∧
      extract_face W H faces = padClamp W H b ∧
      0 ≤ (padClamp W H b).x ∧ 0 ≤ (padClamp W H b).y ∧
      0 < (padClamp W H b).w ∧ 0 < (padClamp W H b).h ∧
      (padClamp W H b).x + (padClamp W H b).w ≤ W ∧
      (padClamp W H b).y + (padClamp W H b).h ≤ H) := by
  constructor
  · intro h
    subst h
    exact ⟨rfl, hW, hH⟩
  · intro hne
    cases faces with
    | nil => exact absurd rfl hne
    | cons r0 rest =>
      obtain ⟨hmem, hmax⟩ := largestFace_spec r0 rest
      obtain ⟨h1, h2, h3, h4, h5, h6⟩ := hin _ hmem
      obtain ⟨b1, b2, b3, b4, b5, b6⟩ := padClamp_bounds W H _ h1 h2 h3 h4 h5 h6
      exact ⟨largestFace r0 rest, hmem, hmax, rfl, b1, b2, b3, b4, b5, b6⟩

/-- C9 witness: a 100 by 80 image with two detections; the 50 by 50 box
has the larger area and is the one padded and clamped. -/
theorem C9_witness :
    (([⟨10, 10, 30, 40⟩, ⟨0, 0, 50, 50⟩] : List Rect) = [] →
      extract_face 100 80 [⟨10, 10, 30, 40⟩, ⟨0, 0, 50, 50⟩] = ⟨0, 0, 100, 80⟩ ∧
      0 < (extract_face 100 80 [⟨10, 10, 30, 40⟩, ⟨0, 0, 50, 50⟩]).w ∧
      0 < (extract_face 100 80 [⟨10, 10, 30, 40⟩, ⟨0, 0, 50, 50⟩]).h) ∧
    (([⟨10, 10, 30, 40⟩, ⟨0, 0, 50, 50⟩] : List Rect) ≠ [] →
      ∃ b ∈ ([⟨10, 10, 30, 40⟩, ⟨0, 0, 50, 50⟩] : List Rect),
        (∀ r ∈ ([⟨10, 10, 30, 40⟩, ⟨0, 0, 50, 50⟩] : List Rect),
          area r ≤ area b) ∧
        extract_face 100 80 [⟨10, 10, 30, 40⟩, ⟨0, 0, 50, 50⟩] = padClamp 100 80 b ∧
        0 ≤ (padClamp 100 80 b).x ∧ 0 ≤ (padClamp 100 80 b).y ∧
        0 < (padClamp 100 80 b).w ∧ 0 < (padClamp 100 80 b).h ∧
        (padClamp 100 80 b).x + (padClamp 100 80 b).w ≤ 100 ∧
        (padClamp 100 80 b).y + (padClamp 100 80 b).h ≤ 80) :=
  C9_face_selection 100 80 [⟨10, 10, 30, 40⟩, ⟨0, 0, 50, 50⟩]
    (by norm_num) (by norm_num) (by decide)

/-- C10 as stated fails on an empty query list: the candidate has a
nonempty image list and the threshold is 0, yet find_matches returns []
because of its empty-input guard. -/
theorem C10_counterexample :
    find_matches Mconst [] [⟨"1", ["c.jpg"]⟩] 0 = [] := rfl

/-- C10 (amended): provided the query image list is nonempty, at any
threshold ≤ 0 find_matches returns exactly the candidates with nonempty
image lists, in candidate iteration order; when every comparison fails
(all absorbed failures score 0) each returned similarity is 0. -/
theorem C10_zero_threshold {F T : Type} (M : Matcher F T)
    (missing : List Url) (cands : List Person) (th : ℚ)
    (hm : missing ≠ []) (hth : th ≤ 0) :
    (find_matches M missing cands th).map MatchResult.unidentified_id =
      (cands.filter fun u => !u.images.isEmpty).map Person.id ∧
    ((∀ m c, compare_faces M m c = 0) →
      find_matches M missing cands th =
        (cands.filter fun u => !u.images.isEmpty).map
          fun u => ⟨u.id, 0, u.images⟩) := by
  have key : ∀ cands2 : List Person,
      cands2.filterMap (evalCand M missing th) =
        (cands2.filter fun u => !u.images.isEmpty).map
          fun u => ⟨u.id, outerBest M u.images th 0 missing, u.images⟩ := by
    intro cands2
    induction cands2 with
    | nil => rfl
    | cons u rest ih =>
      rw [List.filterMap_cons, List.filter_cons]
      by_cases h1 : u.images.isEmpty
      · rw [show evalCand M missing th u = none by
          unfold evalCand; rw [if_pos h1]]
        simp only [h1, Bool.not_true, Bool.false_eq_true, if_false]
        exact ih
      · rw [show evalCand M missing th u =
            some ⟨u.id, outerBest M u.images th 0 missing, u.images⟩ by
          unfold evalCand
          rw [if_neg h1,
            if_pos (le_trans hth (outerBest_ge M u.images th missing 0))]]
        have h2 : (!u.images.isEmpty) = true := by
          simp [h1]
        rw [h2]
        simp only [if_true, List.map_cons]
        rw [ih]
  constructor
  · rw [find_matches_eq_filterMap M missing cands th hm, key, List.map_map]
    rfl
  · intro hz
    rw [find_matches_eq_filterMap M missing cands th hm, key]
    have hzero : ∀ u : Person, outerBest M u.images th 0 missing = 0 :=
      fun u => outerBest_zero M u.images th missing fun m _ c _ => hz m c
    simp only [hzero]

/-- C10 witness: a nonempty query against the degraded matcher at
threshold 0 returns the nonempty-image candidate with similarity 0. -/
theorem C10_witness :
    (find_matches Mnone ["q.jpg"] [⟨"1", ["c.jpg"]⟩] 0).map
        MatchResult.unidentified_id = ["1"] ∧
      find_matches Mnone ["q.jpg"] [⟨"1", ["c.jpg"]⟩] 0 =
        [⟨"1", 0, ["c.jpg"]⟩] := by
  have h := C10_zero_threshold Mnone ["q.jpg"] [⟨"1", ["c.jpg"]⟩] 0
    (List.cons_ne_nil _ _) le_rfl
  constructor
  · rw [h.1]
    rfl
  · rw [h.2 fun m c => rfl]
    rfl

lemma le_outerBest_iff_le_pairBest {F T : Type} (M : Matcher F T)
    (missing imgs : List Url) (th : ℚ) :
    th ≤ outerBest M imgs th 0 missing ↔ th ≤ pairBest M missing imgs := by
  rw [le_outerBest_iff, le_pairBest_iff]

/-- C2 as stated fails: one query image against candidate images scoring
80 then 90 at threshold 70 records similarity 80 (the short-circuit stops
at the first similarity reaching the threshold), while the maximum over
all pairs is 90. -/
theorem C2_counterexample :
    (find_matches Mtwo ["q.jpg"] [⟨"1", ["c1.jpg", "c2.jpg"]⟩] 70).map
        MatchResult.similarity = [80] ∧
      compare_faces Mtwo "q.jpg" "c2.jpg" = 90 ∧
      pairBest Mtwo ["q.jpg"] ["c1.jpg", "c2.jpg"] = 90 := by
  refine ⟨?_, ?_, ?_⟩ <;> decide

/-- C2 (amended): every candidate included in the result of find_matches
carries a similarity that is at least the threshold and at most the
maximum similarity over all (query image, candidate image) pairs for that
candidate (the short-circuit may record an earlier qualifying value
smaller than that maximum), together with that candidate's full image
list. -/
theorem C2_similarity_bounds {F T : Type} (M : Matcher F T)
    (missing : List Url) (cands : List Person) (th : ℚ) (r : MatchResult)
    (hr : r ∈ find_matches M missing cands th) :
    th ≤ r.similarity ∧ ∃ u ∈ cands, r.unidentified_id = u.id ∧
      r.unidentified_images = u.images ∧
      r.similarity ≤ pairBest M missing u.images := by
  cases missing with
  | nil => exact absurd hr (by simp [find_matches])
  | cons m0 ms0 =>
    obtain ⟨u, hu, himg, hb, rfl⟩ :=
      (mem_find_matches M (m0 :: ms0) cands th r (List.cons_ne_nil m0 ms0)).mp hr
    refine ⟨hb, u, hu, rfl, rfl, ?_⟩
    rcases outerBest_eq_or_mem M u.images th (m0 :: ms0) 0 with h0 | ⟨m, hm, c, hc, he⟩
    · show outerBest M u.images th 0 (m0 :: ms0) ≤ pairBest M (m0 :: ms0) u.images
      rw [h0]
      exact pairBest_nonneg M (m0 :: ms0) u.images
    · show outerBest M u.images th 0 (m0 :: ms0) ≤ pairBest M (m0 :: ms0) u.images
      rw [he]
      exact compare_le_pairBest M (m0 :: ms0) u.images m c hm hc

/-- C2 witness: the bounds at the counterexample instance. -/
theorem C2_witness :
    (70 : ℚ) ≤ (⟨"1", 80, ["c1.jpg", "c2.jpg"]⟩ : MatchResult).similarity ∧
      ∃ u ∈ [(⟨"1", ["c1.jpg", "c2.jpg"]⟩ : Person)],
        (⟨"1", 80, ["c1.jpg", "c2.jpg"]⟩ : MatchResult).unidentified_id = u.id ∧
        (⟨"1", 80, ["c1.jpg", "c2.jpg"]⟩ : MatchResult).unidentified_images
          = u.images ∧
        (⟨"1", 80, ["c1.jpg", "c2.jpg"]⟩ : MatchResult).similarity ≤
          pairBest Mtwo ["q.jpg"] u.images :=
  C2_similarity_bounds Mtwo ["q.jpg"] [⟨"1", ["c1.jpg", "c2.jpg"]⟩] 70
    ⟨"1", 80, ["c1.jpg", "c2.jpg"]⟩ (by decide)

lemma evalCand_id {F T : Type} (M : Matcher F T) (missing : List Url) (th : ℚ)
    (u : Person) (r : MatchResult) (h : evalCand M missing th u = some r) :
    r.unidentified_id = u.id := by
  obtain ⟨-, -, rfl⟩ := (evalCand_eq_some M missing th u r).mp h
  rfl

lemma count_ids_filterMap_zero {F T : Type} (M : Matcher F T)
    (missing : List Url) (th : ℚ) (cands : List Person) (s : String)
    (hs : s ∉ cands.map Person.id) :
    List.count s
      ((cands.filterMap (evalCand M missing th)).map MatchResult.unidentified_id)
      = 0 := by
  rw [List.count_eq_zero]
  intro hmem
  rcases List.mem_map.mp hmem with ⟨r, hr, rfl⟩
  rcases List.mem_filterMap.mp hr with ⟨u, hu, he⟩
  exact hs (List.mem_map.mpr ⟨u, hu, (evalCand_id M missing th u r he).symm⟩)

/-- C3 as stated fails for batch_compare: two query images against one
candidate scoring 80 at threshold 70 make batch_compare append the same
candidate id twice, violating the exactly-once rule. -/
theorem C3_counterexample :
    (batch_compare Mconst ["q1.jpg", "q2.jpg"] [⟨"1", ["c.jpg"]⟩] 70).map
      MatchResult.unidentified_id = ["1", "1"] := by
  decide

/-- C3 (amended): for find_matches the claim holds — over candidates with
pairwise-distinct ids, a candidate with a nonempty image list appears in
the result exactly once when its best pairwise similarity reaches the
threshold and zero times otherwise; for batch_compare the exactly-once
rule fails, a candidate can be appended once per qualifying query
image. -/
theorem C3_exactly_once_find_matches {F T : Type} (M : Matcher F T)
    (missing : List Url) (cands : List Person) (th : ℚ) (u : Person)
    (hm : missing ≠ []) (hnd : (cands.map Person.id).Nodup)
    (hu : u ∈ cands) (himg : u.images ≠ []) :
    List.count u.id
      ((find_matches M missing cands th).map MatchResult.unidentified_id)
      = if th ≤ pairBest M missing u.images then 1 else 0 := by
  rw [find_matches_eq_filterMap M missing cands th hm]
  revert hnd hu
  induction cands with
  | nil =>
    intro _ hu
    exact absurd hu (List.not_mem_nil u)
  | cons v rest ih =>
    intro hnd hu
    rw [List.map_cons] at hnd
    obtain ⟨hvnotin, hndrest⟩ := List.nodup_cons.mp hnd
    rw [List.filterMap_cons]
    rcases List.mem_cons.mp hu with rfl | hu2
    · have hrest : List.count u.id
          ((rest.filterMap (evalCand M missing th)).map MatchResult.unidentified_id)
          = 0 :=
        count_ids_filterMap_zero M missing th rest u.id hvnotin
      by_cases hth2 : th ≤ outerBest M u.images th 0 missing
      · rw [show evalCand M missing th u =
            some ⟨u.id, outerBest M u.images th 0 missing, u.images⟩ from
          (evalCand_eq_some M missing th u _).mpr ⟨himg, hth2, rfl⟩]
        rw [List.map_cons]
        rw [show (⟨u.id, outerBest M u.images th 0 missing, u.images⟩ :
          MatchResult).unidentified_id = u.id from rfl]
        rw [List.count_cons_self, hrest,
          if_pos ((le_outerBest_iff_le_pairBest M missing u.images th).mp hth2)]
      · rw [show evalCand M missing th u = none by
          unfold evalCand
          rw [if_neg fun h => himg (List.isEmpty_iff.mp h), if_neg hth2]]
        rw [hrest,
          if_neg fun hp =>
            hth2 ((le_outerBest_iff_le_pairBest M missing u.images th).mpr hp)]
    · have hune : u.id ≠ v.id := by
        intro he
        exact hvnotin (he ▸ List.mem_map.mpr ⟨u, hu2, rfl⟩)
      cases hev : evalCand M missing th v with
      | none => exact ih hndrest hu2
      | some r =>
        rw [List.map_cons,
          List.count_cons_of_ne (evalCand_id M missing th v r hev ▸ hune)]
        exact ih hndrest hu2

/-- C3 witness: the exactly-once count at a concrete match. -/
theorem C3_witness :
    List.count "1"
        ((find_matches Mconst ["q.jpg"] [⟨"1", ["c.jpg"]⟩] 70).map
          MatchResult.unidentified_id)
      = if (70 : ℚ) ≤ pairBest Mconst ["q.jpg"] ["c.jpg"] then 1 else 0 :=
  C3_exactly_once_find_matches Mconst ["q.jpg"] [⟨"1", ["c.jpg"]⟩] 70
    ⟨"1", ["c.jpg"]⟩ (List.cons_ne_nil _ _) (by decide) (by decide)
    (List.cons_ne_nil _ _)

/-- C1 as stated fails at threshold 0: when every extraction fails,
find_matches still returns the nonempty-image candidate (its running best
0 meets the threshold) while batch_compare has no cached features for it
and returns nothing, so the membership differs. -/
theorem C1_counterexample :
    "1" ∈ (find_matches Mnone ["q.jpg"] [⟨"1", ["c.jpg"]⟩] 0).map
        MatchResult.unidentified_id ∧
      "1" ∉ (batch_compare Mnone ["q.jpg"] [⟨"1", ["c.jpg"]⟩] 0).map
        MatchResult.unidentified_id := by
  decide

/-- C1 (amended): for every positive threshold, batch_compare and
find_matches produce identical membership — the set of candidate ids in
one result equals the set in the other. -/
theorem C1_membership_agree {F T : Type} (M : Matcher F T)
    (missing : List Url) (cands : List Person) (th : ℚ) (x : String)
    (hth : 0 < th) :
    x ∈ (find_matches M missing cands th).map MatchResult.unidentified_id ↔
      x ∈ (batch_compare M missing cands th).map MatchResult.unidentified_id := by
  cases missing with
  | nil => simp [find_matches, batch_compare]
  | cons m0 ms0 =>
    rw [List.mem_map, List.mem_map]
    constructor
    · rintro ⟨r, hr, rfl⟩
      obtain ⟨u, hu, himg, hb, rfl⟩ :=
        (mem_find_matches M (m0 :: ms0) cands th r (List.cons_ne_nil m0 ms0)).mp hr
      rcases (le_outerBest_iff M u.images th (m0 :: ms0) 0).mp hb with
        h0 | ⟨m, hm, c, hc, hcmp⟩
      · exact absurd h0 (not_le_of_lt hth)
      · obtain ⟨t1, t2, he1, he2, hsim⟩ :=
          (le_compare_faces_iff M m c th hth).mp hcmp
        have hfne : candFeatures M u ≠ [] := by
          intro hnil
          have : t2 ∈ candFeatures M u :=
            (mem_candFeatures M u t2).mpr ⟨c, hc, he2⟩
          rw [hnil] at this
          exact absurd this (List.not_mem_nil t2)
        have hbest : th ≤ bestSim M t1 (candFeatures M u) :=
          (le_bestSim_iff M t1 (candFeatures M u) th).mpr
            (Or.inr ⟨t2, (mem_candFeatures M u t2).mpr ⟨c, hc, he2⟩, hsim⟩)
        refine ⟨⟨u.id, bestSim M t1 (candFeatures M u), u.images⟩, ?_, rfl⟩
        apply (mem_batch_compare M (m0 :: ms0) cands th _).mpr
        refine ⟨m, hm, t1, he1, ⟨u.id, candFeatures M u, u.images⟩,
          (mem_pre_extract M cands _).mpr ⟨u, hu, hfne, rfl⟩, ?_⟩
        exact (batchEntry_eq_some M th t1 _ _).mpr ⟨hbest, rfl⟩
    · rintro ⟨r, hr, rfl⟩
      obtain ⟨m, hm, mf, hmf, e, he, hentry⟩ :=
        (mem_batch_compare M (m0 :: ms0) cands th r).mp hr
      obtain ⟨u, hu, hfne, rfl⟩ := (mem_pre_extract M cands e).mp he
      obtain ⟨hble, rfl⟩ := (batchEntry_eq_some M th mf _ _).mp hentry
      rcases (le_bestSim_iff M mf (candFeatures M u) th).mp hble with
        h0 | ⟨f, hf, hsim⟩
      · exact absurd h0 (not_le_of_lt hth)
      · obtain ⟨c, hc, hext⟩ := (mem_candFeatures M u f).mp hf
        have hcmp : th ≤ compare_faces M m c :=
          (le_compare_faces_iff M m c th hth).mpr ⟨mf, f, hmf, hext, hsim⟩
        have hb : th ≤ outerBest M u.images th 0 (m0 :: ms0) :=
          (le_outerBest_iff M u.images th (m0 :: ms0) 0).mpr
            (Or.inr ⟨m, hm, c, hc, hcmp⟩)
        have himg : u.images ≠ [] := by
          intro hnil
          rw [hnil] at hc
          exact absurd hc (List.not_mem_nil c)
        refine ⟨⟨u.id, outerBest M u.images th 0 (m0 :: ms0), u.images⟩, ?_, rfl⟩
        exact (mem_find_matches M (m0 :: ms0) cands th _
          (List.cons_ne_nil m0 ms0)).mpr ⟨u, hu, himg, hb, rfl⟩

/-- C1 witness: membership agreement at a concrete positive-threshold
instance. -/
theorem C1_witness :
    (0 : ℚ) < 70 ∧
      ("1" ∈ (find_matches Mconst ["q.jpg"] [⟨"1", ["c.jpg"]⟩] 70).map
          MatchResult.unidentified_id ↔
        "1" ∈ (batch_compare Mconst ["q.jpg"] [⟨"1", ["c.jpg"]⟩] 70).map
          MatchResult.unidentified_id) :=
  ⟨by norm_num,
    C1_membership_agree Mconst ["q.jpg"] [⟨"1", ["c.jpg"]⟩] 70 "1" (by norm_num)⟩

end AiMatcher
